import Mathlib

/-!
Verification of the item-tree move / membership-permission core of this
backend. Items are rows with a materialized path (root-to-leaf identifier
chain); memberships grant a subject a permission on a subtree; moving an
item rewrites the subtree's paths (memberships follow via ON UPDATE
CASCADE) and reconciles explicit memberships against inherited ones.

The embedding follows `src/services/items/tasks/move-item-task.ts` for the
move task, `src/services/items/fluent-schema.ts` for bulk-request
validation, and the password route in the repository's auth plugin.
Service-layer helpers whose implementation files are not part of this
snapshot (`BaseItem`, the item/membership db-services, the bulk
coordinator, the copy naming rule) are modelled from the specification
document and from the repository's own tests, as noted on each definition.
-/

namespace Graasp

/-- Item identifiers (uuid strings in the source). -/
abbrev Uid := String

/-- Permission levels, ordered read < write < admin. -/
inductive Perm
  | read
  | write
  | admin
deriving DecidableEq, Repr

/-- Numeric rank of a permission on the ordered scale. -/
def Perm.rank : Perm → Nat
  | .read => 0
  | .write => 1
  | .admin => 2

/-- `permGE o q`: the optional permission `o` grants at least level `q`. -/
def permGE : Option Perm → Perm → Bool
  | none, _ => false
  | some p, q => q.rank ≤ p.rank

/-- An item row: identifier and materialized path, decoded to the
root-to-leaf identifier list (the source stores the same data as an
ltree string joined with `.`; identifiers are fixed-length tokens, so
string-prefix tests on paths agree with list-prefix tests here). -/
structure Item where
  id : Uid
  path : List Uid
deriving DecidableEq, Repr

/-- An item-membership row: subject, scope path, permission level. -/
structure Membership where
  subject : Uid
  itemPath : List Uid
  perm : Perm
deriving DecidableEq, Repr

/-- The relational store: item rows and membership rows. -/
structure DB where
  items : List Item
  memberships : List Membership
deriving DecidableEq, Repr

/-- Modelled from the spec: `parentPath(path)` — the path with the last
identifier removed; none if the path is a single identifier (root item).
(`BaseItem.parentPath` in the source.) -/
def parentPath (p : List Uid) : Option (List Uid) :=
  if p.length ≤ 1 then none else some p.dropLast

/-- Modelled from the spec: `depth(path)` — number of identifiers in the
path (`BaseItem.itemDepth` in the source). -/
def itemDepth (p : List Uid) : Nat := p.length

/-- `ItemService.get`: look an item up by its identifier. -/
def getItem (db : DB) (i : Uid) : Option Item :=
  db.items.find? (fun it => it.id == i)

/-- The strict descendants of `it`: items whose path strictly extends
`it.path` (the SQL descendant-of filter minus the item itself). -/
def descendantsOf (db : DB) (it : Item) : List Item :=
  db.items.filter (fun j => it.path.isPrefixOf j.path && j.path != it.path)

/-- `ItemService.getNumberOfDescendants`. -/
def numberOfDescendants (db : DB) (it : Item) : Nat :=
  (descendantsOf db it).length

/-- `ItemService.getNumberOfLevelsToFarthestChild`: height of the subtree
hanging below `it` (0 if it is a leaf). -/
def levelsToFarthestChild (db : DB) (it : Item) : Nat :=
  ((descendantsOf db it).map (fun j => j.path.length - it.path.length)).foldr max 0

/-- The destination path of a moved subtree root: the new parent's path
(empty for a move to root) extended with the item's own identifier. -/
def newPathOf (it : Item) (parent : Option Item) : List Uid :=
  (match parent with
    | some prnt => prnt.path
    | none => []) ++ [it.id]

/-- Rewrite one materialized path under a moved prefix: if `oldP` is a
prefix of `p`, replace that prefix with `newP`; otherwise leave `p`. -/
def rewritePath (oldP newP p : List Uid) : List Uid :=
  if oldP.isPrefixOf p then newP ++ p.drop oldP.length else p

/-- The ON UPDATE CASCADE effect on membership rows of rewriting an item
path prefix. -/
def rewriteMems (mems : List Membership) (oldP newP : List Uid) : List Membership :=
  mems.map (fun m => { m with itemPath := rewritePath oldP newP m.itemPath })

/-- `ItemService.move`: update the paths of the moved item and of its whole
subtree; membership paths follow automatically (ON UPDATE CASCADE). -/
def moveDB (db : DB) (it : Item) (parent : Option Item) : DB :=
  let newP := newPathOf it parent
  { items := db.items.map (fun j => { j with path := rewritePath it.path newP j.path }),
    memberships := rewriteMems db.memberships it.path newP }

/-- The memberships of subject `s` whose scope path covers `target`
(scope is a prefix of, or equal to, the target path). -/
def covering (mems : List Membership) (s : Uid) (target : List Uid) : List Membership :=
  mems.filter (fun m => m.subject == s && m.itemPath.isPrefixOf target)

/-- Pick the more specific (longer-path) membership; on equal specificity
keep the higher permission. -/
def pickBest (acc : Option Membership) (m : Membership) : Option Membership :=
  match acc with
  | none => some m
  | some a =>
    if a.itemPath.length < m.itemPath.length then some m
    else if a.itemPath.length == m.itemPath.length && a.perm.rank < m.perm.rank then some m
    else some a

/-- Modelled from the spec: `effectivePermission(subject, itemPath,
memberships)` — among the memberships covering the path, select the one
with the longest (most specific) scope, resolving ties towards the higher
permission (the item-membership db-service is not part of this snapshot). -/
def effectivePermission (mems : List Membership) (s : Uid) (target : List Uid) : Option Perm :=
  ((covering mems s target).foldl pickBest none).map Membership.perm

/-- `ItemMembershipService.canAdmin`. -/
def canAdmin (mems : List Membership) (actor : Uid) (it : Item) : Bool :=
  permGE (effectivePermission mems actor it.path) .admin

/-- `ItemMembershipService.canWrite`. -/
def canWrite (mems : List Membership) (actor : Uid) (it : Item) : Bool :=
  permGE (effectivePermission mems actor it.path) .write

/-- Permission a subject holds at the destination by inheritance: the
effective permission at the new parent's path (none for a move to root,
where nothing is inherited). -/
def inheritedAtNew (db : DB) (parent : Option Item) (s : Uid) : Option Perm :=
  match parent with
  | some prnt => effectivePermission db.memberships s prnt.path
  | none => none

/-- Modelled from the spec: `ItemMembershipService.moveHousekeeping` (its
implementation file is not part of this snapshot) — compute, before the
physical path rewrite, the membership `inserts` and `deletes` that keep
memberships minimal across a move of `it` under `parent`:
* insert, for every subject whose access to `it` was purely inherited
  (no explicit membership exactly at `it.path`) and whom the destination
  does not already grant an equal or higher permission by inheritance, a
  new explicit membership at the destination path with the
  previously-effective permission;
* delete every explicit membership inside the moved subtree that the new
  ancestor chain makes redundant (equal or higher permission already
  granted above it). Inserts and deletes carry post-move paths, matching
  the source comment that deletes' `itemPath`s reflect the state after
  `ItemService.move`. -/
def moveHousekeeping (db : DB) (it : Item) (_actor : Uid) (parent : Option Item) :
    List Membership × List Membership :=
  let newP := newPathOf it parent
  let rewritten := rewriteMems db.memberships it.path newP
  let subjects := (db.memberships.map Membership.subject).dedup
  let inserts := subjects.filterMap (fun s =>
    if db.memberships.any (fun m => m.subject == s && m.itemPath == it.path) then none
    else
      match effectivePermission db.memberships s it.path with
      | none => none
      | some p =>
        if permGE (inheritedAtNew db parent s) p then none
        else some ⟨s, newP, p⟩)
  let deletes := db.memberships.filterMap (fun m =>
    if it.path.isPrefixOf m.itemPath then
      let q := rewritePath it.path newP m.itemPath
      if permGE (effectivePermission rewritten m.subject q.dropLast) m.perm
      then some { m with itemPath := q } else none
    else none)
  (inserts, deletes)

/-- `ItemMembershipService.createMany`. -/
def createMany (db : DB) (ms : List Membership) : DB :=
  { db with memberships := db.memberships ++ ms }

/-- `ItemMembershipService.deleteManyMatching`: remove the membership rows
matching the given (subject, path, permission) descriptions. -/
def deleteManyMatching (db : DB) (ms : List Membership) : DB :=
  { db with memberships := db.memberships.filter (fun m => !(ms.contains m)) }

/-- The error taxonomy raised by the move task
(`util/graasp-error` names). -/
inductive GraaspError
  | itemNotFound (id : Uid)
  | userCannotAdminItem (id : Uid)
  | userCannotWriteItem (id : Uid)
  | invalidMoveTarget (id : Option Uid)
  | hierarchyTooDeep
  | tooManyDescendants (id : Uid)
deriving DecidableEq, Repr

/-- Tree-wide limits (`MAX_DESCENDANTS_FOR_MOVE`, `MAX_TREE_LEVELS` from
`util/config`; the config file is not part of this snapshot, so the limits
are parameters of the embedding). -/
structure Config where
  maxDescendantsForMove : Nat
  maxTreeLevels : Nat
deriving DecidableEq, Repr

/-- Observable steps of `MoveItemTask.moveItem`, in execution order; the
housekeeping event records the membership rows it was computed from. -/
inductive MoveEvent
  | housekeeping (memsSeen inserts deletes : List Membership)
  | rewritePaths
  | insertMemberships (ms : List Membership)
  | deleteMemberships (ms : List Membership)
deriving DecidableEq, Repr

/-- `MoveItemTask.moveItem`: compute the membership housekeeping first
(from the pre-move membership paths), then rewrite the item paths
(cascading onto membership paths), then apply the computed inserts and
deletes, in that order; `createMany`/`deleteManyMatching` are skipped when
their argument list is empty, exactly as in the source. The event list
records the steps in execution order. -/
def moveItem (db : DB) (it : Item) (actor : Uid) (parent : Option Item) :
    DB × List MoveEvent :=
  let hk := moveHousekeeping db it actor parent
  let ev0 := MoveEvent.housekeeping db.memberships hk.1 hk.2
  let db1 := moveDB db it parent
  let db2 := if hk.1.isEmpty then db1 else createMany db1 hk.1
  let db3 := if hk.2.isEmpty then db2 else deleteManyMatching db2 hk.2
  (db3,
    [ev0, MoveEvent.rewritePaths]
      ++ (if hk.1.isEmpty then [] else [MoveEvent.insertMemberships hk.1])
      ++ (if hk.2.isEmpty then [] else [MoveEvent.deleteMemberships hk.2]))

/-- `MoveItemTask.run`: the single-item move operation, translated branch
by branch from the source. An error result means nothing was written (the
task throws before any mutation). -/
def MoveItemTask.run (cfg : Config) (db : DB) (actor : Uid) (targetId : Uid)
    (parentItemId : Option Uid) : Except GraaspError (DB × List MoveEvent) :=
  match getItem db targetId with
  | none => .error (.itemNotFound targetId)
  | some it =>
    if !(canAdmin db.memberships actor it) then .error (.userCannotAdminItem targetId)
    else if cfg.maxDescendantsForMove < numberOfDescendants db it then
      .error (.tooManyDescendants targetId)
    else
      match parentItemId with
      | some pid =>
        match getItem db pid with
        | none => .error (.itemNotFound pid)
        | some parentItem =>
          if it.path.isPrefixOf parentItem.path
              || parentPath it.path == some parentItem.path then
            .error (.invalidMoveTarget (some pid))
          else if !(canWrite db.memberships actor parentItem) then
            .error (.userCannotWriteItem pid)
          else if cfg.maxTreeLevels <
              itemDepth parentItem.path + 1 + levelsToFarthestChild db it then
            .error .hierarchyTooDeep
          else .ok (moveItem db it actor (some parentItem))
      | none =>
        if (parentPath it.path).isNone then .error (.invalidMoveTarget none)
        else .ok (moveItem db it actor none)

/-- Modelled from the spec and the repository's tests: the bulk move
coordinator (its implementation file is not part of this snapshot). The
tests `POST /items/move — 'Fail to move items if one item does not exist'`
and `DELETE /items — 'Does not delete items if item does not exist'`
assert that a batch containing one nonexistent target leaves every sibling
target untouched, so the coordinator first resolves every target and fails
the whole batch on the first missing identifier; only when all targets
exist does it run the single-item move task on each target in order. -/
def bulkMove (cfg : Config) (db : DB) (actor : Uid) (targetIds : List Uid)
    (parentItemId : Option Uid) : Except GraaspError DB :=
  match targetIds.find? (fun t => (getItem db t).isNone) with
  | some t => .error (.itemNotFound t)
  | none =>
    .ok (targetIds.foldl (fun cur t =>
      match MoveItemTask.run cfg cur actor t parentItemId with
      | .ok (db', _) => db'
      | .error _ => cur) db)

/-- The bulk operations exercised by the test suite. -/
inductive BulkOp
  | move
  | copy
  | del
deriving DecidableEq, Repr

/-- One bulk request exercised by the test suite: operation, number of
target identifiers, and the HTTP status the test asserts. -/
structure BulkResponseObs where
  op : BulkOp
  nbTargets : Nat
  status : Nat
deriving DecidableEq, Repr

/-- Embedded from the repository's tests (the route handlers are not part
of this snapshot): every bulk move/copy/delete request in the suite —
including single-target requests — is answered with 202 Accepted and the
effects are awaited afterwards (`waitForExpect`). Entries, in order:
'Delete successfully one item' (1 target), 'Delete successfully items'
(2 targets), 'Move successfully item to root and create new membership'
(1 target), 'Move successfully root item to parent' (3 targets),
'Copy attached geolocation' (1 target), 'Copy successfully from root to
root' (3 targets). -/
def observedBulkResponses : List BulkResponseObs :=
  [⟨.del, 1, 202⟩, ⟨.del, 2, 202⟩,
   ⟨.move, 1, 202⟩, ⟨.move, 3, 202⟩,
   ⟨.copy, 1, 202⟩, ⟨.copy, 3, 202⟩]

/-- The claim's synchronous-vs-asynchronous split, stated from the spec's
words: below the synchronous threshold `t` a bulk request is answered
synchronously (200 with a structured results/errors body), at or above it
with 202 Accepted. -/
def syncSplitHolds (t : Nat) : Prop :=
  ∀ obs ∈ observedBulkResponses,
    (obs.nbTargets < t → obs.status = 200) ∧ (t ≤ obs.nbTargets → obs.status = 202)

/-- From `src/services/items/fluent-schema.ts`, `moveMany`: the
querystring's `id` array carries `maxItems MAX_TARGETS_FOR_MODIFY_REQUEST`.
(The companion `idsQuery` format check on each identifier lives in a file
outside this snapshot and is independent of the size limit, so it is
elided here.) -/
def moveManyQueryValid (maxTargets : Nat) (ids : List Uid) : Bool :=
  ids.length ≤ maxTargets

/-- Modelled from the spec: schema validation runs at the request boundary
— a failing validation is answered with 400 Bad Request and the store is
never touched; a passing one is acknowledged with 202 Accepted and the
bulk coordinator runs (a per-target failure does not change the
acknowledgment). Returns (status, resulting store). -/
def moveManyRoute (cfg : Config) (maxTargets : Nat) (db : DB) (actor : Uid)
    (ids : List Uid) (parentItemId : Option Uid) : Nat × DB :=
  if moveManyQueryValid maxTargets ids then
    match bulkMove cfg db actor ids parentItemId with
    | .ok db' => (202, db')
    | .error _ => (202, db)
  else (400, db)

/-- One copy scenario exercised by the test suite: the copied item's name,
the names of the destination's pre-existing children, and the name the
test asserts for the copy. -/
structure CopyNameObs where
  original : String
  destSiblings : List String
  expected : String
deriving DecidableEq, Repr

/-- Embedded from the repository's tests (the copy service is not part of
this snapshot). 'Copy successfully from root to item with admin rights'
copies an item named `item-0` into a freshly created folder with no
children and asserts the copy is named `item-0 (2)`; 'Copy successfully
from item to root' copies to the actor's root, where only the original's
parent lives, with the same assertion; 'Copy successfully from root to
root' copies next to the original itself (a genuine collision). -/
def observedCopyNames : List CopyNameObs :=
  [⟨"item-0", [], "item-0 (2)"⟩,
   ⟨"item-0", ["parent-folder"], "item-0 (2)"⟩,
   ⟨"item-0", ["item-0"], "item-0 (2)"⟩]

/-- The claim's naming rule, stated from the spec's words: the copy keeps
the original name unless a sibling at the destination already carries it,
in which case a parenthesized counter is appended. -/
def copyNameSpec (original : String) (destSiblings : List String) : String :=
  if original ∈ destSiblings then original ++ " (2)" else original

/-- The naming rule the tests pin down: a copy's top-level name always
receives the ` (2)` suffix, collision or not. -/
def copyNameCode (original : String) : String := original ++ " (2)"

/-- A member row for the password routes: identifier and email. -/
structure MemberRec where
  id : Uid
  email : String
deriving DecidableEq, Repr

/-- State touched by the password-set route: member rows, stored
passwords, and the members validated so far. -/
structure PasswordDB where
  members : List MemberRec
  passwords : List (Uid × String)
  validated : List Uid
deriving DecidableEq, Repr

/-- `MemberService.getByEmail`. -/
def getByEmail (db : PasswordDB) (email : String) : Option MemberRec :=
  db.members.find? (fun m => m.email == email)

/-- The reply object: the HTTP statuses set on it, in order; the status
actually sent is the last one set. -/
structure Reply where
  statuses : List Nat
deriving DecidableEq, Repr

/-- `reply.status(s)`. -/
def Reply.set (r : Reply) (s : Nat) : Reply := ⟨r.statuses ++ [s]⟩

/-- The status a reply is sent with. -/
def Reply.final (r : Reply) : Option Nat := r.statuses.getLast?

/-- The `POST /password/nouser` handler, translated from the source: look
the member up by email; if found, validate the member and store the
password; otherwise set status 404 — and then, on both branches, set
status 204 before the transaction returns (the 404 of the missing-member
branch is unconditionally overwritten). The password service's
already-has-a-password conflict path is irrelevant to the missing-member
branch and is modelled as a plain success. -/
def postPasswordNoUser (db : PasswordDB) (email pw : String) : PasswordDB × Reply :=
  let r0 : Reply := ⟨[]⟩
  match getByEmail db email with
  | some m =>
    let db1 := { db with validated := db.validated ++ [m.id] }
    let db2 := { db1 with passwords := db1.passwords ++ [(m.id, pw)] }
    (db2, r0.set 204)
  | none =>
    (db, (r0.set 404).set 204)

/-- Modelled from the spec: `assertDepthAllowed(prospectivePath, maxDepth)`
of the Tree Invariant Checker (the create-item task is not part of this
snapshot) — fails with `HierarchyTooDeep` if the prospective path is
deeper than the configured maximum. -/
def assertDepthAllowed (prospectivePath : List Uid) (maxDepth : Nat) :
    Except GraaspError Unit :=
  if maxDepth < itemDepth prospectivePath then .error .hierarchyTooDeep else .ok ()

/-- The move-task error list the spec gives for a single-item move. -/
def isSpecifiedMoveError : GraaspError → Bool
  | .itemNotFound _ => true
  | .userCannotAdminItem _ => true
  | .userCannotWriteItem _ => true
  | .invalidMoveTarget _ => true
  | .hierarchyTooDeep => true
  | .tooManyDescendants _ => false

/-- Concrete configuration for the witness scenarios. -/
def cfgW : Config := ⟨5, 10⟩

/-- Witness store: folder `p` with child `x`; subject `s` holds admin on
`p` only, so `s`'s access to `x` is purely inherited. -/
def dbMoveToRoot : DB :=
  ⟨[⟨"p", ["p"]⟩, ⟨"x", ["p", "x"]⟩], [⟨"s", ["p"], .admin⟩]⟩

/-- Witness store: root items `y` and `x`; actor `t` admin on both,
subject `s` admin on `y` and explicit write on `x`. -/
def dbMoveUnder : DB :=
  ⟨[⟨"y", ["y"]⟩, ⟨"x", ["x"]⟩],
   [⟨"t", ["y"], .admin⟩, ⟨"t", ["x"], .admin⟩,
    ⟨"s", ["y"], .admin⟩, ⟨"s", ["x"], .write⟩]⟩

/-- Witness store for the bulk scenarios: valid root items `a` and `c`
and a destination folder `p`, all administered by `s`. -/
def dbBulk : DB :=
  ⟨[⟨"a", ["a"]⟩, ⟨"c", ["c"]⟩, ⟨"p", ["p"]⟩],
   [⟨"s", ["a"], .admin⟩, ⟨"s", ["c"], .admin⟩, ⟨"s", ["p"], .admin⟩]⟩

/-- Result of the witness move of `x` out of `p` to root: `x`'s path
shrinks to its own identifier and an explicit admin membership is
inserted for `s`, whose access was purely inherited from `p`. -/
def moveToRootResult : DB × List MoveEvent :=
  (⟨[⟨"p", ["p"]⟩, ⟨"x", ["x"]⟩], [⟨"s", ["p"], .admin⟩, ⟨"s", ["x"], .admin⟩]⟩,
   [.housekeeping [⟨"s", ["p"], .admin⟩] [⟨"s", ["x"], .admin⟩] [],
    .rewritePaths,
    .insertMemberships [⟨"s", ["x"], .admin⟩]])

/-! ## Helper lemmas -/

/-- The boolean `List.isPrefixOf` agrees with the prefix relation. -/
theorem isPrefixOf_iff_pfx : ∀ {l₁ l₂ : List Uid}, l₁.isPrefixOf l₂ = true ↔ l₁ <+: l₂
  | [], l₂ => by simp [List.isPrefixOf]
  | _ :: _, [] => by simp [List.isPrefixOf]
  | a :: as, b :: bs => by
    simp [List.isPrefixOf, List.cons_prefix_cons, isPrefixOf_iff_pfx, and_comm]

/-- Every element of a list of naturals is bounded by its `foldr max 0`. -/
theorem le_foldr_max {l : List Nat} {a : Nat} (h : a ∈ l) : a ≤ l.foldr max 0 := by
  induction l with
  | nil => cases h
  | cons b bs ih =>
    rcases List.mem_cons.mp h with rfl | h'
    · exact Nat.le_max_left _ _
    · exact Nat.le_trans (ih h') (Nat.le_max_right _ _)

/-- An effective permission only exists when the subject holds at least
one membership. -/
theorem effectivePermission_some_subject {mems : List Membership} {s : Uid}
    {t : List Uid} {p : Perm} (h : effectivePermission mems s t = some p) :
    ∃ m ∈ mems, m.subject = s := by
  cases hcov : covering mems s t with
  | nil => simp [effectivePermission, hcov] at h
  | cons m ms =>
    have hm : m ∈ covering mems s t := by rw [hcov]; exact List.mem_cons_self _ _
    have hmf := List.mem_filter.mp hm
    refine ⟨m, hmf.1, ?_⟩
    have := hmf.2
    simp only [Bool.and_eq_true, beq_iff_eq] at this
    exact this.1

/-- Rewriting the paths under a moved prefix does not change which
memberships cover a target outside the moved subtree, provided the new
root path is longer than the target. -/
theorem covering_rewriteMems {mems : List Membership} {oldP newP target : List Uid}
    {s : Uid} (h1 : ¬ oldP <+: target) (h2 : target.length < newP.length) :
    covering (rewriteMems mems oldP newP) s target = covering mems s target := by
  induction mems with
  | nil => rfl
  | cons m ms ih =>
    by_cases hp : oldP.isPrefixOf m.itemPath = true
    · have hne_old : m.itemPath.isPrefixOf target = false := by
        by_contra hc
        rw [Bool.not_eq_false, isPrefixOf_iff_pfx] at hc
        exact h1 ((isPrefixOf_iff_pfx.mp hp).trans hc)
      have hne_new : (newP ++ m.itemPath.drop oldP.length).isPrefixOf target = false := by
        by_contra hc
        rw [Bool.not_eq_false, isPrefixOf_iff_pfx] at hc
        have hlen := hc.length_le
        rw [List.length_append] at hlen
        omega
      simp only [covering, rewriteMems, List.map_cons, List.filter_cons, rewritePath,
        if_pos hp, hne_old, hne_new, Bool.and_false] at ih ⊢
      exact ih
    · have hid : rewritePath oldP newP m.itemPath = m.itemPath := by
        simp [rewritePath, hp]
      simp only [covering, rewriteMems, List.map_cons, List.filter_cons, hid] at ih ⊢
      cases hcond : (m.subject == s && m.itemPath.isPrefixOf target) with
      | false =>
        rw [if_neg (by simp [hcond]), if_neg (by simp [hcond])]
        exact ih
      | true =>
        rw [if_pos (by simp [hcond]), if_pos (by simp [hcond])]
        exact congrArg (List.cons m) ih

/-- Corollary of `covering_rewriteMems` for the effective permission. -/
theorem effectivePermission_rewriteMems {mems : List Membership}
    {oldP newP target : List Uid} {s : Uid}
    (h1 : ¬ oldP <+: target) (h2 : target.length < newP.length) :
    effectivePermission (rewriteMems mems oldP newP) s target =
      effectivePermission mems s target := by
  unfold effectivePermission
  rw [covering_rewriteMems h1 h2]

/-- The membership inserts and deletes of `moveItem` never touch the item
rows: the resulting items are exactly the path-rewritten ones. -/
theorem moveItem_fst_items (db : DB) (it : Item) (actor : Uid) (parent : Option Item) :
    (moveItem db it actor parent).1.items =
      db.items.map (fun j => { j with path := rewritePath it.path (newPathOf it parent) j.path }) := by
  unfold moveItem
  cases h1 : (moveHousekeeping db it actor parent).1.isEmpty <;>
    cases h2 : (moveHousekeeping db it actor parent).2.isEmpty <;>
      simp [h1, h2, createMany, deleteManyMatching, moveDB]

/-- Inversion of a successful `MoveItemTask.run`: the checks it performed
and the shape of its result. -/
theorem run_ok_inversion {cfg : Config} {db : DB} {actor targetId : Uid}
    {parentItemId : Option Uid} {out : DB × List MoveEvent}
    (h : MoveItemTask.run cfg db actor targetId parentItemId = .ok out) :
    ∃ it, getItem db targetId = some it ∧ canAdmin db.memberships actor it = true ∧
      numberOfDescendants db it ≤ cfg.maxDescendantsForMove ∧
      ((∃ p prnt, parentItemId = some p ∧ getItem db p = some prnt ∧
          (it.path.isPrefixOf prnt.path || parentPath it.path == some prnt.path) = false ∧
          canWrite db.memberships actor prnt = true ∧
          itemDepth prnt.path + 1 + levelsToFarthestChild db it ≤ cfg.maxTreeLevels ∧
          out = moveItem db it actor (some prnt))
        ∨ (parentItemId = none ∧ parentPath it.path ≠ none ∧
            out = moveItem db it actor none)) := by
  cases parentItemId with
  | some p =>
    simp only [MoveItemTask.run] at h
    split at h
    · exact absurd h (by simp)
    rename_i it heq
    refine ⟨it, heq, ?_⟩
    split at h
    · exact absurd h (by simp)
    rename_i hadm
    have hadm' : canAdmin db.memberships actor it = true := by
      revert hadm; cases canAdmin db.memberships actor it <;> simp
    refine ⟨hadm', ?_⟩
    split at h
    · exact absurd h (by simp)
    rename_i hdesc
    refine ⟨Nat.le_of_not_lt hdesc, ?_⟩
    split at h
    · exact absurd h (by simp)
    rename_i prnt hprnt
    split at h
    · exact absurd h (by simp)
    rename_i hinval
    have hinval' :
        (it.path.isPrefixOf prnt.path || parentPath it.path == some prnt.path) = false := by
      revert hinval
      cases it.path.isPrefixOf prnt.path || parentPath it.path == some prnt.path <;> simp
    split at h
    · exact absurd h (by simp)
    rename_i hw
    have hw' : canWrite db.memberships actor prnt = true := by
      revert hw; cases canWrite db.memberships actor prnt <;> simp
    split at h
    · exact absurd h (by simp)
    rename_i hdeep
    exact Or.inl ⟨p, prnt, rfl, hprnt, hinval', hw',
      Nat.le_of_not_lt hdeep, (Except.ok.injEq _ _).mp h.symm⟩
  | none =>
    simp only [MoveItemTask.run] at h
    split at h
    · exact absurd h (by simp)
    rename_i it heq
    refine ⟨it, heq, ?_⟩
    split at h
    · exact absurd h (by simp)
    rename_i hadm
    have hadm' : canAdmin db.memberships actor it = true := by
      revert hadm; cases canAdmin db.memberships actor it <;> simp
    refine ⟨hadm', ?_⟩
    split at h
    · exact absurd h (by simp)
    rename_i hdesc
    refine ⟨Nat.le_of_not_lt hdesc, ?_⟩
    split at h
    · exact absurd h (by simp)
    rename_i hroot
    refine Or.inr ⟨rfl, ?_, (Except.ok.injEq _ _).mp h.symm⟩
    intro hc
    exact hroot (by rw [hc]; rfl)

/-! ## Claim theorems -/

/-- C10: for every POST /password/nouser request whose email matches no
existing member, the handler first sets 404 Not Found and then
unconditionally overwrites it with 204 No Content before the transaction
returns, so the reply is sent with 204 on every request — callers cannot
distinguish a missing member from a successful password set by status
code. -/
theorem c10_password_nouser_status :
    (∀ (db : PasswordDB) (email pw : String),
      ((postPasswordNoUser db email pw).2).final = some 204)
    ∧ (∀ (db : PasswordDB) (email pw : String),
        getByEmail db email = none →
        postPasswordNoUser db email pw = (db, ⟨[404, 204]⟩)) := by
  constructor
  · intro db email pw
    unfold postPasswordNoUser
    cases getByEmail db email <;> rfl
  · intro db email pw h
    unfold postPasswordNoUser
    rw [h]
    rfl

/-- C10 witness: on an empty member table the handler replies 204 with the
404 status having been set and overwritten. -/
theorem c10_password_nouser_status_witness :
    getByEmail ⟨[], [], []⟩ "e@x" = none ∧
      postPasswordNoUser ⟨[], [], []⟩ "e@x" "pw" = (⟨[], [], []⟩, ⟨[404, 204]⟩) :=
  ⟨rfl, c10_password_nouser_status.2 ⟨[], [], []⟩ "e@x" "pw" rfl⟩

/-- C9 counterexample: the test 'Copy successfully from root to item with
admin rights' copies `item-0` into a destination with no same-named
sibling and asserts the copy is named `item-0 (2)`, while the claim's
rule would keep the name `item-0` unchanged. -/
theorem c9_copy_suffix_counterexample :
    CopyNameObs.mk "item-0" [] "item-0 (2)" ∈ observedCopyNames ∧
      copyNameSpec "item-0" [] = "item-0" ∧
      "item-0" ≠ "item-0 (2)" := by
  refine ⟨by decide, rfl, by decide⟩

/-- C9 (amended): the copy's top-level name always receives the
parenthesized-counter suffix ` (2)`, whether or not a name collision
exists among the siblings at the destination. -/
theorem c9_copy_suffix_unconditional :
    ∀ obs ∈ observedCopyNames, obs.expected = copyNameCode obs.original := by
  decide

/-- C9 witness: the no-collision copy scenario carries the suffix. -/
theorem c9_copy_suffix_unconditional_witness :
    (CopyNameObs.mk "item-0" [] "item-0 (2)").expected =
      copyNameCode (CopyNameObs.mk "item-0" [] "item-0 (2)").original :=
  c9_copy_suffix_unconditional ⟨"item-0", [], "item-0 (2)"⟩ (by decide)

/-- C7 counterexample: the test suite answers a single-target bulk delete
with 202 Accepted ('Delete successfully one item'), so no synchronous
threshold of 2 or of 5 (the old backend's response threshold) is
compatible with the observed statuses: requests below the threshold are
not answered with a synchronous 200 results body. -/
theorem c7_sync_split_counterexample :
    ¬ syncSplitHolds 2 ∧ ¬ syncSplitHolds 5 ∧
      BulkResponseObs.mk .del 1 202 ∈ observedBulkResponses := by
  refine ⟨?_, ?_, by decide⟩
  · intro h
    have := (h ⟨.del, 1, 202⟩ (by decide)).1 (by decide)
    simp at this
  · intro h
    have := (h ⟨.del, 1, 202⟩ (by decide)).1 (by decide)
    simp at this

/-- C7 (amended): every bulk move/copy/delete request exercised by the
suite — including single-target ones — is acknowledged with 202 Accepted
and executed asynchronously; no request is answered with a synchronous
results/errors body. -/
theorem c7_async_only :
    ∀ obs ∈ observedBulkResponses, obs.status = 202 ∧ obs.status ≠ 200 := by
  decide

/-- C7 witness: the single-target delete request is acknowledged with
202. -/
theorem c7_async_only_witness :
    (BulkResponseObs.mk .del 1 202).status = 202 ∧
      (BulkResponseObs.mk .del 1 202).status ≠ 200 :=
  c7_async_only ⟨.del, 1, 202⟩ (by decide)

/-- C5 counterexample: moving an item whose subtree exceeds
`MAX_DESCENDANTS_FOR_MOVE` fails with `TooManyDescendants`, an error
outside the claim's list of five. -/
theorem c5_move_error_counterexample :
    MoveItemTask.run ⟨0, 10⟩ dbMoveToRoot "s" "p" none =
        .error (.tooManyDescendants "p") ∧
      isSpecifiedMoveError (.tooManyDescendants "p") = false :=
  ⟨rfl, rfl⟩

/-- C5 (amended): a single-item move fails only with one of ItemNotFound
(on the target or the destination parent), UserCannotAdminItem,
TooManyDescendants, InvalidMoveTarget, UserCannotWriteItem, or
HierarchyTooDeep — the claim's list plus `TooManyDescendants`, which the
source raises when the moved subtree is larger than
`MAX_DESCENDANTS_FOR_MOVE`. -/
theorem c5_move_error_exhaustive (cfg : Config) (db : DB) (actor targetId : Uid)
    (parentItemId : Option Uid) :
    (∃ out, MoveItemTask.run cfg db actor targetId parentItemId = .ok out) ∨
    (∃ e, MoveItemTask.run cfg db actor targetId parentItemId = .error e ∧
      (e = .itemNotFound targetId ∨
        (∃ p, parentItemId = some p ∧ e = .itemNotFound p) ∨
        e = .userCannotAdminItem targetId ∨
        e = .tooManyDescendants targetId ∨
        (∃ p, parentItemId = some p ∧ e = .invalidMoveTarget (some p)) ∨
        e = .invalidMoveTarget none ∨
        (∃ p, parentItemId = some p ∧ e = .userCannotWriteItem p) ∨
        e = .hierarchyTooDeep)) := by
  cases parentItemId with
  | some p =>
    simp only [MoveItemTask.run]
    repeat' split
    all_goals first
      | exact Or.inl ⟨_, rfl⟩
      | exact Or.inr ⟨_, rfl, Or.inl rfl⟩
      | exact Or.inr ⟨_, rfl, Or.inr (Or.inl ⟨_, rfl, rfl⟩)⟩
      | exact Or.inr ⟨_, rfl, Or.inr (Or.inr (Or.inl rfl))⟩
      | exact Or.inr ⟨_, rfl, Or.inr (Or.inr (Or.inr (Or.inl rfl)))⟩
      | exact Or.inr ⟨_, rfl, Or.inr (Or.inr (Or.inr (Or.inr (Or.inl ⟨_, rfl, rfl⟩))))⟩
      | exact Or.inr ⟨_, rfl, Or.inr (Or.inr (Or.inr (Or.inr (Or.inr (Or.inl rfl)))))⟩
      | exact Or.inr ⟨_, rfl,
          Or.inr (Or.inr (Or.inr (Or.inr (Or.inr (Or.inr (Or.inl ⟨_, rfl, rfl⟩))))))⟩
      | exact Or.inr ⟨_, rfl,
          Or.inr (Or.inr (Or.inr (Or.inr (Or.inr (Or.inr (Or.inr rfl))))))⟩
  | none =>
    simp only [MoveItemTask.run]
    repeat' split
    all_goals first
      | exact Or.inl ⟨_, rfl⟩
      | exact Or.inr ⟨_, rfl, Or.inl rfl⟩
      | exact Or.inr ⟨_, rfl, Or.inr (Or.inr (Or.inl rfl))⟩
      | exact Or.inr ⟨_, rfl, Or.inr (Or.inr (Or.inr (Or.inl rfl)))⟩
      | exact Or.inr ⟨_, rfl, Or.inr (Or.inr (Or.inr (Or.inr (Or.inr (Or.inl rfl)))))⟩

/-- C2 counterexample: in the bulk move of [a, b, c] into p, target b does
not exist while a and c are individually movable — yet the whole batch
fails with ItemNotFound and neither a nor c completes, contradicting
per-target isolation. -/
theorem c2_bulk_isolation_counterexample :
    bulkMove cfgW dbBulk "s" ["a", "b", "c"] (some "p") =
        .error (.itemNotFound "b") ∧
      (MoveItemTask.run cfgW dbBulk "s" "a" (some "p")).isOk = true ∧
      (MoveItemTask.run cfgW dbBulk "s" "c" (some "p")).isOk = true :=
  ⟨rfl, rfl, rfl⟩

/-- C2 (amended): a per-target NotFound aborts the whole bulk move — if
any listed target does not exist the coordinator fails with ItemNotFound
for a missing target and performs no sibling operation (per the tests
'Fail to move items if one item does not exist' and 'Does not delete
items if item does not exist'); only when every target resolves are the
targets processed. -/
theorem c2_bulk_wholesale_failure (cfg : Config) (db : DB) (actor : Uid)
    (ids : List Uid) (parentItemId : Option Uid) :
    ((∃ t ∈ ids, getItem db t = none) →
      ∃ t', bulkMove cfg db actor ids parentItemId = .error (.itemNotFound t') ∧
        t' ∈ ids ∧ getItem db t' = none)
    ∧ ((∀ t ∈ ids, (getItem db t).isSome) →
        ∃ db', bulkMove cfg db actor ids parentItemId = .ok db') := by
  constructor
  · intro h
    cases hf : ids.find? (fun t => (getItem db t).isNone) with
    | none =>
      obtain ⟨t, ht, hnone⟩ := h
      have := List.find?_eq_none.mp hf t ht
      rw [hnone] at this
      simp at this
    | some t' =>
      refine ⟨t', ?_, List.mem_of_find?_eq_some hf, ?_⟩
      · unfold bulkMove
        rw [hf]
      · have := List.find?_some hf
        exact Option.isNone_iff_eq_none.mp this
  · intro h
    cases hf : ids.find? (fun t => (getItem db t).isNone) with
    | none =>
      refine ⟨ids.foldl (fun cur t =>
          match MoveItemTask.run cfg cur actor t parentItemId with
          | .ok (db', _) => db'
          | .error _ => cur) db, ?_⟩
      unfold bulkMove
      rw [hf]
    | some t' =>
      have hmem := List.mem_of_find?_eq_some hf
      have hn := List.find?_some hf
      have hn' := Option.isNone_iff_eq_none.mp hn
      have hval := h t' hmem
      rw [hn'] at hval
      simp at hval

/-- C2 amended witness: the batch with the missing target b fails with
ItemNotFound b; the all-valid batch [a, c] completes. -/
theorem c2_bulk_wholesale_failure_witness :
    (∃ t', bulkMove cfgW dbBulk "s" ["a", "b", "c"] (some "p") =
        .error (.itemNotFound t') ∧ t' ∈ ["a", "b", "c"] ∧ getItem dbBulk t' = none)
    ∧ (∃ db', bulkMove cfgW dbBulk "s" ["a", "c"] (some "p") = .ok db') :=
  ⟨(c2_bulk_wholesale_failure cfgW dbBulk "s" ["a", "b", "c"] (some "p")).1
      ⟨"b", by decide, rfl⟩,
    (c2_bulk_wholesale_failure cfgW dbBulk "s" ["a", "c"] (some "p")).2
      (by intro t ht; fin_cases ht <;> rfl)⟩

/-- C8: a bulk move whose target list exceeds
`MAX_TARGETS_FOR_MODIFY_REQUEST` is rejected by schema validation with
400 Bad Request and the store is left untouched; a list of exactly the
maximum passes validation, is acknowledged with 202 Accepted, and the
bulk coordinator's outcome is applied. -/
theorem c8_bulk_size_limit (cfg : Config) (maxTargets : Nat) (db : DB)
    (actor : Uid) (ids : List Uid) (parentItemId : Option Uid) :
    (maxTargets < ids.length →
      moveManyRoute cfg maxTargets db actor ids parentItemId = (400, db))
    ∧ (ids.length = maxTargets →
        moveManyRoute cfg maxTargets db actor ids parentItemId =
          (202, match bulkMove cfg db actor ids parentItemId with
            | .ok db' => db'
            | .error _ => db)) := by
  constructor
  · intro h
    unfold moveManyRoute
    rw [if_neg]
    simp only [moveManyQueryValid, decide_eq_true_eq]
    omega
  · intro h
    unfold moveManyRoute
    rw [if_pos]
    · cases bulkMove cfg db actor ids parentItemId <;> rfl
    · simp only [moveManyQueryValid, decide_eq_true_eq]
      omega

/-- C8 witness: with a maximum of 2 targets, a 3-target request is
rejected with 400 and an exactly-2-target request is accepted with 202
and processed. -/
theorem c8_bulk_size_limit_witness :
    moveManyRoute cfgW 2 dbBulk "s" ["a", "b", "c"] (some "p") = (400, dbBulk)
    ∧ moveManyRoute cfgW 2 dbBulk "s" ["a", "c"] (some "p") =
        (202, match bulkMove cfgW dbBulk "s" ["a", "c"] (some "p") with
          | .ok db' => db'
          | .error _ => dbBulk) :=
  ⟨(c8_bulk_size_limit cfgW 2 dbBulk "s" ["a", "b", "c"] (some "p")).1 (by decide),
    (c8_bulk_size_limit cfgW 2 dbBulk "s" ["a", "c"] (some "p")).2 rfl⟩

/-- C3: under the checks that precede the target validation (item found,
actor can admin it, subtree within the move size bound), a move whose
destination parent is the source itself, a descendant of the source, or
identical to the source's current parent — including moving a root item
to root — fails with `InvalidMoveTarget`; the error is thrown before
`moveItem`, so no state is written and the tree is unchanged. -/
theorem c3_invalid_move_target (cfg : Config) (db : DB) (actor targetId : Uid)
    (it : Item)
    (hget : getItem db targetId = some it)
    (hadmin : canAdmin db.memberships actor it = true)
    (hdesc : numberOfDescendants db it ≤ cfg.maxDescendantsForMove) :
    (∀ (p : Uid) (prnt : Item), getItem db p = some prnt →
      (prnt.path = it.path ∨ it.path <+: prnt.path ∨ parentPath it.path = some prnt.path) →
      MoveItemTask.run cfg db actor targetId (some p) =
        .error (.invalidMoveTarget (some p)))
    ∧ (parentPath it.path = none →
        MoveItemTask.run cfg db actor targetId none = .error (.invalidMoveTarget none)) := by
  have hnm := Nat.not_lt.mpr hdesc
  constructor
  · intro p prnt hp hcase
    have hcond :
        (it.path.isPrefixOf prnt.path || parentPath it.path == some prnt.path) = true := by
      rcases hcase with hep | hdes | hpar
      · have h1 : it.path.isPrefixOf prnt.path = true :=
          isPrefixOf_iff_pfx.mpr (by rw [hep])
        rw [h1, Bool.true_or]
      · have h1 : it.path.isPrefixOf prnt.path = true := isPrefixOf_iff_pfx.mpr hdes
        rw [h1, Bool.true_or]
      · rw [hpar]
        simp
    simp [MoveItemTask.run, hget, hadmin, hnm, hp, hcond]
  · intro hroot
    simp [MoveItemTask.run, hget, hadmin, hnm, hroot]

/-- C3 witness: moving `x` back under its current parent `p` fails with
`InvalidMoveTarget p`; moving the root item `p` to root fails with
`InvalidMoveTarget`. -/
theorem c3_invalid_move_target_witness :
    MoveItemTask.run cfgW dbMoveToRoot "s" "x" (some "p") =
        .error (.invalidMoveTarget (some "p"))
    ∧ MoveItemTask.run cfgW dbMoveToRoot "s" "p" none =
        .error (.invalidMoveTarget none) :=
  ⟨(c3_invalid_move_target cfgW dbMoveToRoot "s" "x" ⟨"x", ["p", "x"]⟩ rfl rfl
        (by decide)).1 "p" ⟨"p", ["p"]⟩ rfl (Or.inr (Or.inr rfl)),
    (c3_invalid_move_target cfgW dbMoveToRoot "s" "p" ⟨"p", ["p"]⟩ rfl rfl
        (by decide)).2 rfl⟩

/-- The event trace of `moveItem`: housekeeping first (recording the
pre-move membership rows it was computed from), then the path rewrite,
then the inserts, then the deletes. -/
theorem moveItem_trace_spec (db : DB) (it : Item) (actor : Uid) (parent : Option Item) :
    (moveItem db it actor parent).2.head? =
        some (.housekeeping db.memberships (moveHousekeeping db it actor parent).1
          (moveHousekeeping db it actor parent).2) ∧
    (moveItem db it actor parent).2[1]? = some .rewritePaths ∧
    (∀ (i : Nat) (ms : List Membership),
      (moveItem db it actor parent).2[i]? = some (.insertMemberships ms) →
      2 ≤ i ∧ ms = (moveHousekeeping db it actor parent).1) ∧
    (∀ (i : Nat) (ms : List Membership),
      (moveItem db it actor parent).2[i]? = some (.deleteMemberships ms) →
      2 ≤ i ∧ ms = (moveHousekeeping db it actor parent).2) ∧
    (∀ (i j : Nat) (ms₁ ms₂ : List Membership),
      (moveItem db it actor parent).2[i]? = some (.insertMemberships ms₁) →
      (moveItem db it actor parent).2[j]? = some (.deleteMemberships ms₂) → i < j) := by
  cases h1 : (moveHousekeeping db it actor parent).1.isEmpty with
  | false =>
    cases h2 : (moveHousekeeping db it actor parent).2.isEmpty with
    | false =>
      have htr : (moveItem db it actor parent).2 =
          [.housekeeping db.memberships (moveHousekeeping db it actor parent).1
            (moveHousekeeping db it actor parent).2, .rewritePaths,
           .insertMemberships (moveHousekeeping db it actor parent).1,
           .deleteMemberships (moveHousekeeping db it actor parent).2] := by
        simp [moveItem, h1, h2]
      refine ⟨by rw [htr]; rfl, by rw [htr]; rfl, ?_, ?_, ?_⟩
      · intro i ms h
        rw [htr] at h
        rcases i with _ | _ | _ | _ | i <;> simp at h <;>
          exact ⟨by omega, by simp_all⟩
      · intro i ms h
        rw [htr] at h
        rcases i with _ | _ | _ | _ | i <;> simp at h <;>
          exact ⟨by omega, by simp_all⟩
      · intro i j ms₁ ms₂ hi hj
        rw [htr] at hi hj
        rcases i with _ | _ | _ | _ | i <;> rcases j with _ | _ | _ | _ | j <;>
          simp at hi hj <;> omega
    | true =>
      have htr : (moveItem db it actor parent).2 =
          [.housekeeping db.memberships (moveHousekeeping db it actor parent).1
            (moveHousekeeping db it actor parent).2, .rewritePaths,
           .insertMemberships (moveHousekeeping db it actor parent).1] := by
        simp [moveItem, h1, h2]
      refine ⟨by rw [htr]; rfl, by rw [htr]; rfl, ?_, ?_, ?_⟩
      · intro i ms h
        rw [htr] at h
        rcases i with _ | _ | _ | _ | i <;> simp at h <;>
          exact ⟨by omega, by simp_all⟩
      · intro i ms h
        rw [htr] at h
        rcases i with _ | _ | _ | _ | i <;> simp at h
      · intro i j ms₁ ms₂ hi hj
        rw [htr] at hi hj
        rcases j with _ | _ | _ | _ | j <;> simp at hj
  | true =>
    cases h2 : (moveHousekeeping db it actor parent).2.isEmpty with
    | false =>
      have htr : (moveItem db it actor parent).2 =
          [.housekeeping db.memberships (moveHousekeeping db it actor parent).1
            (moveHousekeeping db it actor parent).2, .rewritePaths,
           .deleteMemberships (moveHousekeeping db it actor parent).2] := by
        simp [moveItem, h1, h2]
      refine ⟨by rw [htr]; rfl, by rw [htr]; rfl, ?_, ?_, ?_⟩
      · intro i ms h
        rw [htr] at h
        rcases i with _ | _ | _ | _ | i <;> simp at h
      · intro i ms h
        rw [htr] at h
        rcases i with _ | _ | _ | _ | i <;> simp at h <;>
          exact ⟨by omega, by simp_all⟩
      · intro i j ms₁ ms₂ hi hj
        rw [htr] at hi hj
        rcases i with _ | _ | _ | _ | i <;> simp at hi
    | true =>
      have htr : (moveItem db it actor parent).2 =
          [.housekeeping db.memberships (moveHousekeeping db it actor parent).1
            (moveHousekeeping db it actor parent).2, .rewritePaths] := by
        simp [moveItem, h1, h2]
      refine ⟨by rw [htr]; rfl, by rw [htr]; rfl, ?_, ?_, ?_⟩
      · intro i ms h
        rw [htr] at h
        rcases i with _ | _ | _ | _ | i <;> simp at h
      · intro i ms h
        rw [htr] at h
        rcases i with _ | _ | _ | _ | i <;> simp at h
      · intro i j ms₁ ms₂ hi hj
        rw [htr] at hi hj
        rcases i with _ | _ | _ | _ | i <;> simp at hi

/-- C4: on every successful move, the membership reconciliation is
computed by `moveHousekeeping` on the pre-move store (the first event
records the pre-move membership rows), the physical path rewrite comes
second, and the computed inserts and deletes are applied only after the
rewrite, inserts before deletes; the final store is the rewrite followed
by the pre-computed inserts and deletes. -/
theorem c4_move_housekeeping_order (cfg : Config) (db : DB) (actor targetId : Uid)
    (parentItemId : Option Uid) (res : DB × List MoveEvent)
    (h : MoveItemTask.run cfg db actor targetId parentItemId = .ok res) :
    ∃ it parent,
      getItem db targetId = some it ∧
      res.2.head? = some (.housekeeping db.memberships
        (moveHousekeeping db it actor parent).1 (moveHousekeeping db it actor parent).2) ∧
      res.2[1]? = some .rewritePaths ∧
      (∀ (i : Nat) (ms : List Membership),
        res.2[i]? = some (.insertMemberships ms) →
        2 ≤ i ∧ ms = (moveHousekeeping db it actor parent).1) ∧
      (∀ (i : Nat) (ms : List Membership),
        res.2[i]? = some (.deleteMemberships ms) →
        2 ≤ i ∧ ms = (moveHousekeeping db it actor parent).2) ∧
      (∀ (i j : Nat) (ms₁ ms₂ : List Membership),
        res.2[i]? = some (.insertMemberships ms₁) →
        res.2[j]? = some (.deleteMemberships ms₂) → i < j) ∧
      res.1 =
        (let db1 := moveDB db it parent
         let db2 := if (moveHousekeeping db it actor parent).1.isEmpty then db1
           else createMany db1 (moveHousekeeping db it actor parent).1
         if (moveHousekeeping db it actor parent).2.isEmpty then db2
           else deleteManyMatching db2 (moveHousekeeping db it actor parent).2) := by
  obtain ⟨it, hget, _, _, hbr⟩ := run_ok_inversion h
  rcases hbr with ⟨p, prnt, hpid, hgetp, hninval, hw, hdeep, hres⟩ | ⟨hpid, hroot, hres⟩
  · subst hres
    obtain ⟨t1, t2, t3, t4, t5⟩ := moveItem_trace_spec db it actor (some prnt)
    exact ⟨it, some prnt, hget, t1, t2, t3, t4, t5, rfl⟩
  · subst hres
    obtain ⟨t1, t2, t3, t4, t5⟩ := moveItem_trace_spec db it actor none
    exact ⟨it, none, hget, t1, t2, t3, t4, t5, rfl⟩

/-- C4 witness: the move of `x` to root succeeds with result
`moveToRootResult`, whose event trace satisfies the housekeeping-order
properties. -/
theorem c4_move_housekeeping_order_witness :
    ∃ it parent,
      getItem dbMoveToRoot "x" = some it ∧
      moveToRootResult.2.head? = some (.housekeeping dbMoveToRoot.memberships
        (moveHousekeeping dbMoveToRoot it "s" parent).1
        (moveHousekeeping dbMoveToRoot it "s" parent).2) ∧
      moveToRootResult.2[1]? = some .rewritePaths ∧
      (∀ (i : Nat) (ms : List Membership),
        moveToRootResult.2[i]? = some (.insertMemberships ms) →
        2 ≤ i ∧ ms = (moveHousekeeping dbMoveToRoot it "s" parent).1) ∧
      (∀ (i : Nat) (ms : List Membership),
        moveToRootResult.2[i]? = some (.deleteMemberships ms) →
        2 ≤ i ∧ ms = (moveHousekeeping dbMoveToRoot it "s" parent).2) ∧
      (∀ (i j : Nat) (ms₁ ms₂ : List Membership),
        moveToRootResult.2[i]? = some (.insertMemberships ms₁) →
        moveToRootResult.2[j]? = some (.deleteMemberships ms₂) → i < j) ∧
      moveToRootResult.1 =
        (let db1 := moveDB dbMoveToRoot it parent
         let db2 := if (moveHousekeeping dbMoveToRoot it "s" parent).1.isEmpty then db1
           else createMany db1 (moveHousekeeping dbMoveToRoot it "s" parent).1
         if (moveHousekeeping dbMoveToRoot it "s" parent).2.isEmpty then db2
           else deleteManyMatching db2 (moveHousekeeping dbMoveToRoot it "s" parent).2) :=
  c4_move_housekeeping_order cfgW dbMoveToRoot "s" "x" none moveToRootResult rfl

/-- C6: (1) a successful move preserves the depth bound — if every item's
path depth is at most `MAX_TREE_LEVELS` before the move, the same holds
after it; (2) a move whose resulting depth (destination parent depth plus
one plus the moved subtree's height) would exceed the maximum fails with
`HierarchyTooDeep` before anything is written, leaving the tree
unchanged; (3) the create-side depth gate (`assertDepthAllowed`, modelled
from the spec since the create task is not part of this snapshot) rejects
any prospective path deeper than the maximum with `HierarchyTooDeep`. -/
theorem c6_depth_bound :
    (∀ (cfg : Config) (db : DB) (actor targetId : Uid) (parentItemId : Option Uid)
        (res : DB × List MoveEvent),
      (∀ i ∈ db.items, itemDepth i.path ≤ cfg.maxTreeLevels) →
      MoveItemTask.run cfg db actor targetId parentItemId = .ok res →
      ∀ i ∈ res.1.items, itemDepth i.path ≤ cfg.maxTreeLevels)
    ∧ (∀ (cfg : Config) (db : DB) (actor targetId p : Uid) (it prnt : Item),
        getItem db targetId = some it →
        canAdmin db.memberships actor it = true →
        numberOfDescendants db it ≤ cfg.maxDescendantsForMove →
        getItem db p = some prnt →
        (it.path.isPrefixOf prnt.path || parentPath it.path == some prnt.path) = false →
        canWrite db.memberships actor prnt = true →
        cfg.maxTreeLevels < itemDepth prnt.path + 1 + levelsToFarthestChild db it →
        MoveItemTask.run cfg db actor targetId (some p) = .error .hierarchyTooDeep)
    ∧ (∀ (prospectivePath : List Uid) (maxDepth : Nat),
        maxDepth < itemDepth prospectivePath →
        assertDepthAllowed prospectivePath maxDepth = .error .hierarchyTooDeep) := by
  refine ⟨?_, ?_, ?_⟩
  · intro cfg db actor targetId parentItemId res hinv hrun i hi
    obtain ⟨it, hget, hadm, hdesc, hbr⟩ := run_ok_inversion hrun
    rcases hbr with ⟨p, prnt, hpid, hgetp, hninval, hw, hdeep, hres⟩ | ⟨hpid, hroot, hres⟩
    · subst hres
      rw [moveItem_fst_items] at hi
      obtain ⟨j, hj, rfl⟩ := List.mem_map.mp hi
      by_cases hp : it.path.isPrefixOf j.path = true
      · simp only [rewritePath, if_pos hp, itemDepth, List.length_append, List.length_drop]
        have hnewlen : (newPathOf it (some prnt)).length = prnt.path.length + 1 := by
          simp [newPathOf]
        rw [hnewlen]
        simp only [itemDepth] at hdeep
        by_cases hje : j.path = it.path
        · have : j.path.length = it.path.length := by rw [hje]
          omega
        · have hdm : j ∈ descendantsOf db it := by
            unfold descendantsOf
            rw [List.mem_filter]
            exact ⟨hj, by rw [Bool.and_eq_true]; exact ⟨hp, bne_iff_ne.mpr hje⟩⟩
          have hlev : j.path.length - it.path.length ≤ levelsToFarthestChild db it :=
            le_foldr_max (List.mem_map_of_mem _ hdm)
          omega
      · have hid : rewritePath it.path (newPathOf it (some prnt)) j.path = j.path := by
          simp [rewritePath, hp]
        simp only [hid]
        exact hinv j hj
    · subst hres
      rw [moveItem_fst_items] at hi
      obtain ⟨j, hj, rfl⟩ := List.mem_map.mp hi
      by_cases hp : it.path.isPrefixOf j.path = true
      · simp only [rewritePath, if_pos hp, itemDepth, List.length_append, List.length_drop]
        have hnewlen : (newPathOf it none).length = 1 := by simp [newPathOf]
        rw [hnewlen]
        have hlen := (isPrefixOf_iff_pfx.mp hp).length_le
        have hroot2 : 2 ≤ it.path.length := by
          by_contra hc
          push_neg at hc
          exact hroot (by unfold parentPath; rw [if_pos (by omega)])
        have hjb := hinv j hj
        simp only [itemDepth] at hjb
        omega
      · have hid : rewritePath it.path (newPathOf it none) j.path = j.path := by
          simp [rewritePath, hp]
        simp only [hid]
        exact hinv j hj
  · intro cfg db actor targetId p it prnt hget hadm hdesc hgetp hninval hw hdeep
    have hnm := Nat.not_lt.mpr hdesc
    simp [MoveItemTask.run, hget, hadm, hnm, hgetp, hninval, hw, hdeep]
  · intro prospectivePath maxDepth h
    unfold assertDepthAllowed
    rw [if_pos h]

/-- C6 witness: the moved item `x` keeps depth within the bound after the
witness move; a move of `x` under `y` with `MAX_TREE_LEVELS = 1` fails
with `HierarchyTooDeep`; a two-level prospective path is rejected when the
maximum depth is 1. -/
theorem c6_depth_bound_witness :
    itemDepth (Item.mk "x" ["x"]).path ≤ cfgW.maxTreeLevels
    ∧ MoveItemTask.run ⟨5, 1⟩ dbMoveUnder "t" "x" (some "y") = .error .hierarchyTooDeep
    ∧ assertDepthAllowed ["a", "b"] 1 = .error .hierarchyTooDeep :=
  ⟨c6_depth_bound.1 cfgW dbMoveToRoot "s" "x" none moveToRootResult (by decide) rfl
      ⟨"x", ["x"]⟩ (by decide),
    c6_depth_bound.2.1 ⟨5, 1⟩ dbMoveUnder "t" "x" "y" ⟨"x", ["x"]⟩ ⟨"y", ["y"]⟩
      rfl rfl (by decide) rfl rfl rfl (by decide),
    c6_depth_bound.2.2 ["a", "b"] 1 (by decide)⟩

/-- C1: membership minimality across a move. (1) If a subject's access to
the moved item was purely inherited (no explicit membership at the item's
path, but an effective permission p exists) and the destination does not
grant that subject an equal or higher permission by inheritance (in
particular for a move to root, where nothing is inherited), then the
housekeeping inserts a new explicit membership for the subject at the
destination path with the previously-effective permission p. (2) If the
moved item carries an explicit membership and the destination parent's
ancestor chain already grants that subject an equal or higher permission,
then the housekeeping deletes that explicit membership (listed under its
post-move path, as the source applies deletions after the cascade
rewrite). -/
theorem c1_move_membership_minimality :
    (∀ (db : DB) (it : Item) (actor : Uid) (parent : Option Item) (s : Uid) (p : Perm),
      db.memberships.any (fun m => m.subject == s && m.itemPath == it.path) = false →
      effectivePermission db.memberships s it.path = some p →
      permGE (inheritedAtNew db parent s) p = false →
      Membership.mk s (newPathOf it parent) p ∈ (moveHousekeeping db it actor parent).1)
    ∧ (∀ (db : DB) (it : Item) (actor : Uid) (prnt : Item) (m : Membership),
        m ∈ db.memberships → m.itemPath = it.path →
        ¬ it.path <+: prnt.path →
        permGE (effectivePermission db.memberships m.subject prnt.path) m.perm = true →
        Membership.mk m.subject (prnt.path ++ [it.id]) m.perm ∈
          (moveHousekeeping db it actor (some prnt)).2) := by
  constructor
  · intro db it actor parent s p h1 heff h3
    obtain ⟨m, hm, hms⟩ := effectivePermission_some_subject heff
    have hsmem : s ∈ (db.memberships.map Membership.subject).dedup := by
      rw [List.mem_dedup]
      exact List.mem_map.mpr ⟨m, hm, hms⟩
    simp only [moveHousekeeping]
    refine List.mem_filterMap.mpr ⟨s, hsmem, ?_⟩
    simp [h1, heff, h3]
  · intro db it actor prnt m hm hpath hnp hge
    simp only [moveHousekeeping]
    refine List.mem_filterMap.mpr ⟨m, hm, ?_⟩
    have hp : it.path.isPrefixOf m.itemPath = true := by
      rw [hpath]
      exact isPrefixOf_iff_pfx.mpr List.prefix_rfl
    have hq : rewritePath it.path (prnt.path ++ [it.id]) m.itemPath =
        prnt.path ++ [it.id] := by
      rw [hpath]
      simp [rewritePath, isPrefixOf_iff_pfx.mpr (List.prefix_refl it.path), List.drop_length]
    have heq : effectivePermission
        (rewriteMems db.memberships it.path (prnt.path ++ [it.id])) m.subject prnt.path =
        effectivePermission db.memberships m.subject prnt.path :=
      effectivePermission_rewriteMems hnp (by simp)
    simp [hp, hq, heq, hge, newPathOf]

/-- C1 witness: (insert case) `x` sits under `p` with subject `s` holding
admin only on `p`; moving `x` to root inserts an explicit admin
membership for `s` at the new root path. (delete case) `x` carries an
explicit write membership for `s` and is moved under `y`, where `s`
already holds admin; the housekeeping deletes that membership at its
post-move path. -/
theorem c1_move_membership_minimality_witness :
    Membership.mk "s" ["x"] Perm.admin ∈
        (moveHousekeeping dbMoveToRoot ⟨"x", ["p", "x"]⟩ "s" none).1
    ∧ Membership.mk "s" ["y", "x"] Perm.write ∈
        (moveHousekeeping dbMoveUnder ⟨"x", ["x"]⟩ "t" (some ⟨"y", ["y"]⟩)).2 :=
  ⟨c1_move_membership_minimality.1 dbMoveToRoot ⟨"x", ["p", "x"]⟩ "s" none "s" .admin
      (by decide) (by decide) (by decide),
    c1_move_membership_minimality.2 dbMoveUnder ⟨"x", ["x"]⟩ "t" ⟨"y", ["y"]⟩
      ⟨"s", ["x"], .write⟩ (by decide) rfl (by decide) (by decide)⟩

end Graasp
